import Mathlib

/-!
# Verification of the diff2commit pipeline

A shallow embedding of the core of the `diff2commit` repository
(`src/diff2commit/...`): the response parser and message model of the AI
provider adapters, the prompt builder, the conventional-commit validator,
the tenacity retry wrapper around `generate_commit_message`, the cost
estimator, the usage ledger, and the staged-diff line counting.

Python strings are modelled as lists of characters (`PyStr`); Python
`float` costs are modelled as rationals.  The repository's packaging
escapes every newline in string literals (the sources read `"\\n"`
throughout where a newline separator is meant); the embedding uses the
newline character.
-/

set_option maxRecDepth 4000

namespace Diff2Commit

/-- Python strings, modelled as lists of characters. -/
abbrev PyStr := List Char

/-- Embed a Lean string literal as a `PyStr`. -/
def lit (s : String) : PyStr := s.toList

/-- The whitespace characters recognised by Python's `str.strip`. -/
def pyIsSpace (c : Char) : Bool :=
  c = ' ' || c = '\t' || c = '\n' || c = '\r' || c = '\x0b' || c = '\x0c'

/-- Python `str.lstrip()`. -/
def pyLStrip (s : PyStr) : PyStr := s.dropWhile pyIsSpace

/-- Python `str.strip()`: drop whitespace from both ends. -/
def pyStrip (s : PyStr) : PyStr :=
  ((s.dropWhile pyIsSpace).reverse.dropWhile pyIsSpace).reverse

/-- Python `str.split("\n")`: split at every newline, keeping empty
pieces (`"".split("\n") == [""]`). -/
def splitNl : PyStr → List PyStr
  | [] => [[]]
  | c :: rest =>
    match splitNl rest with
    | [] => [[]]
    | l :: ls => if c = '\n' then [] :: l :: ls else (c :: l) :: ls

/-- Python `"\n".join(lines)`. -/
def joinNl (lines : List PyStr) : PyStr := List.intercalate ['\n'] lines

/-- Python `str.startswith(prefix)`. -/
def pyStartsWith (s pre : PyStr) : Bool := pre.isPrefixOf s

/-- Python `str.endswith(suffix)`. -/
def pyEndsWith (s suf : PyStr) : Bool := suf.isSuffixOf s

/-- Python `sub in s` (substring containment). -/
def pyContains : PyStr → PyStr → Bool
  | s, sub =>
    if sub.isPrefixOf s then true
    else match s with
      | [] => false
      | _ :: t => pyContains t sub

/-- Python `s.count(pat)` for a non-empty pattern: greedy left-to-right
count of non-overlapping occurrences. -/
def pyCount (s pat : PyStr) : ℕ :=
  if pat = [] then 0
  else
    match s with
    | [] => 0
    | c :: rest =>
      if pat.isPrefixOf (c :: rest) then
        1 + pyCount (List.drop (pat.length - 1) rest) pat
      else
        pyCount rest pat
termination_by s.length
decreasing_by
  · simp only [List.length_drop, List.length_cons]; omega
  · simp only [List.length_cons]; omega

/-- Python `str.lower()` on a single ASCII character. -/
def pyLowerChar (c : Char) : Char :=
  if 'A' ≤ c ∧ c ≤ 'Z' then Char.ofNat (c.toNat + 32) else c

/-- Python `str.lower()`. -/
def pyLower (s : PyStr) : PyStr := s.map pyLowerChar

/-- Python `str(n)` for a natural number. -/
def natToStr (n : ℕ) : PyStr := (Nat.repr n).toList

/-- Python slice `s[:k]` for an integer bound `k` (negative bounds count
from the end of the string, clamped at zero). -/
def pySliceTo (s : PyStr) (k : ℤ) : PyStr :=
  if 0 ≤ k then s.take k.toNat else s.take (s.length - (-k).toNat)

/-! ## Message model (`ai_providers/base.py`, class `CommitMessage`) -/

/-- The `CommitMessage` dataclass: subject plus optional body and footer,
with usage metadata.  The `timestamp` field (a wall-clock default) is not
modelled. -/
structure CommitMessage where
  subject : PyStr
  body : Option PyStr := none
  footer : Option PyStr := none
  raw : PyStr := []
  tokensUsed : ℕ := 0
  cost : ℚ := 0
  provider : PyStr := []
  model : PyStr := []
deriving Repr, DecidableEq

/-- `CommitMessage.format`: the subject, then a blank line and the body
when the body is truthy (present and non-empty), then a blank line and
the footer when the footer is truthy, joined with newlines. -/
def CommitMessage.format (m : CommitMessage) : PyStr :=
  let parts : List PyStr := [m.subject]
  let parts : List PyStr :=
    match m.body with
    | some b => if b.isEmpty then parts else parts ++ [[], b]
    | none => parts
  let parts : List PyStr :=
    match m.footer with
    | some f => if f.isEmpty then parts else parts ++ [[], f]
    | none => parts
  joinNl parts

/-! ## Response parser (`openai_provider.py` / `openrouter_provider.py`,
`_parse_message`) -/

/-- The recognised footer markers. -/
def footerMarkers : List PyStr := [lit "BREAKING CHANGE:", lit "Refs:", lit "Closes:"]

/-- `line.strip().startswith(("BREAKING CHANGE:", "Refs:", "Closes:"))`. -/
def isFooterStart (line : PyStr) : Bool :=
  footerMarkers.any fun m => pyStartsWith (pyStrip line) m

/-- State of the line-classification loop in `_parse_message`. -/
structure ParseState where
  subject : PyStr
  inBody : Bool
  inFooter : Bool
  bodyLines : List PyStr
  footerLines : List PyStr
deriving Repr, DecidableEq

/-- The `for line in lines` loop of `_parse_message`, transcribed branch
by branch. -/
def parseLoop : List PyStr → ParseState → ParseState
  | [], st => st
  | line :: rest, st =>
    if st.subject.isEmpty && !(pyStrip line).isEmpty then
      parseLoop rest { st with subject := pyStrip line }
    else if !st.inFooter && isFooterStart line then
      parseLoop rest { st with inFooter := true,
                               footerLines := st.footerLines ++ [pyStrip line] }
    else if st.inFooter then
      parseLoop rest { st with footerLines := st.footerLines ++ [pyStrip line] }
    else if !(pyStrip line).isEmpty || st.inBody then
      parseLoop rest { st with inBody := true, bodyLines := st.bodyLines ++ [line] }
    else
      parseLoop rest st

/-- Subject truncation in `_parse_message`:
`if len(subject) > max_len: subject = subject[: max_len - 3] + "..."`. -/
def truncateSubject (maxLen : ℕ) (subject : PyStr) : PyStr :=
  if maxLen < subject.length then pySliceTo subject ((maxLen : ℤ) - 3) ++ lit "..."
  else subject

/-- `_parse_message` of the OpenAI/OpenRouter adapters: strip and split
the raw text, classify lines into subject/body/footer, truncate the
subject, and join body and footer with final strips. -/
def parseMessage (maxLen : ℕ) (text : PyStr) (tokens : ℕ) (cost : ℚ) : CommitMessage :=
  let lines := splitNl (pyStrip text)
  let st := parseLoop lines ⟨[], false, false, [], []⟩
  { subject := truncateSubject maxLen st.subject
    body := if st.bodyLines.isEmpty then none else some (pyStrip (joinNl st.bodyLines))
    footer := if st.footerLines.isEmpty then none else some (pyStrip (joinNl st.footerLines))
    raw := text
    tokensUsed := tokens
    cost := cost
    provider := lit "openai" }

/-- Blankness test used by the parser loop. -/
def isBlankLine (l : PyStr) : Bool := (pyStrip l).isEmpty

/-- Declarative view: the lines following the subject line (the lines
after the first non-blank line). -/
def linesAfterSubject (lines : List PyStr) : List PyStr :=
  (lines.dropWhile isBlankLine).tail

/-- Declarative view: candidate body lines, up to the first footer
marker. -/
def bodyPartOf (lines : List PyStr) : List PyStr :=
  (linesAfterSubject lines).takeWhile fun l => !isFooterStart l

/-- Declarative view: the footer block, from the first marker line on. -/
def footerPartOf (lines : List PyStr) : List PyStr :=
  (linesAfterSubject lines).dropWhile fun l => !isFooterStart l

/-! ## Prompt builder (`prompts.py`, `build_commit_prompt`) -/

/-- Python `dict.get(key, default)` over an association list. -/
def dictGetD (d : List (PyStr × PyStr)) (k : PyStr) (dflt : PyStr) : PyStr :=
  ((d.find? fun p => p.1 == k).map Prod.snd).getD dflt

/-- The `file_summary` list: at most the first 10 changed files with
their change code, plus an overflow line when more than 10 exist. -/
def buildFileSummary (filesChanged : List PyStr) (changeTypes : List (PyStr × PyStr)) :
    List PyStr :=
  ((filesChanged.take 10).map fun f =>
    lit "  " ++ dictGetD changeTypes f (lit "M") ++ lit " " ++ f) ++
  (if 10 < filesChanged.length then
    [lit "  ... and " ++ natToStr (filesChanged.length - 10) ++ lit " more files"]
  else [])

/-- `truncated_diff`: the first 3000 characters of the diff, with a
truncation marker appended when the diff is longer. -/
def truncatedDiffOf (diff : PyStr) : PyStr :=
  diff.take 3000 ++ (if 3000 < diff.length then lit "\n\n... (diff truncated)" else [])

/-- The part of the prompt f-string before the interpolated diff. -/
def promptPrefix (filesChanged : List PyStr) (additions deletions : ℕ)
    (changeTypes : List (PyStr × PyStr)) : PyStr :=
  lit "Analyze the following staged changes and generate a Conventional Commit message.\n\nFiles changed (" ++
  natToStr filesChanged.length ++ lit "):\n" ++
  joinNl (buildFileSummary filesChanged changeTypes) ++
  lit "\n\nStatistics:\n  +" ++ natToStr additions ++ lit " additions, -" ++
  natToStr deletions ++ lit " deletions\n\nGit diff:\n```\n"

/-- The part of the prompt f-string after the interpolated diff. -/
def promptSuffix (includeEmoji : Bool) : PyStr :=
  lit "\n```\n" ++
  (if includeEmoji then
    lit "\nInclude an appropriate emoji at the start of the commit message."
  else []) ++
  lit "\n\n### Commit Message\n"

/-- `build_commit_prompt`: the prompt f-string, which concatenates the
fixed text, the file summary, the statistics, the truncated diff, and
the optional emoji instruction. -/
def build_commit_prompt (diff : PyStr) (filesChanged : List PyStr)
    (additions deletions : ℕ) (changeTypes : List (PyStr × PyStr))
    (includeEmoji : Bool) : PyStr :=
  promptPrefix filesChanged additions deletions changeTypes ++
  truncatedDiffOf diff ++ promptSuffix includeEmoji

/-! ## Conventional-commit validator (`validators.py`,
`CommitMessageValidator.validate_conventional`)

The two regular expressions are embedded as deterministic scanners.
`^(type)(\(scope\))?: .+` and `^(\w+)(\([^)]+\))?: (added|...)` both
have the property that the optional parenthesised group and the
repeated character classes cannot overlap the characters that follow
them, so backtracking never changes the outcome. -/

/-- The fixed conventional-commit type set. -/
def conventionalTypes : List PyStr :=
  [lit "feat", lit "fix", lit "docs", lit "style", lit "refactor", lit "perf",
   lit "test", lit "build", lit "ci", lit "chore", lit "revert"]

/-- Characters allowed by the scope class `[a-z0-9-]`. -/
def isScopeChar (c : Char) : Bool :=
  ('a' ≤ c && c ≤ 'z') || ('0' ≤ c && c ≤ '9') || c = '-'

/-- Match `: .+` (the dot excludes a newline) as a prefix of `cs`. -/
def matchColonRest : PyStr → Bool
  | ':' :: ' ' :: c :: _ => c ≠ '\n'
  | _ => false

/-- Continue inside `\([a-z0-9-]+\): .+` after one scope character. -/
def matchScopeTail : PyStr → Bool
  | [] => false
  | c :: rest =>
    if isScopeChar c then matchScopeTail rest
    else c = ')' && matchColonRest rest

/-- Match `\([a-z0-9-]+\): .+` as a prefix of `cs`. -/
def matchScope : PyStr → Bool
  | '(' :: c :: rest => isScopeChar c && matchScopeTail rest
  | _ => false

/-- `re.match` of the type pattern
`^(feat|fix|...)(\([a-z0-9-]+\))?: .+` against the subject. -/
def matchTypePattern (subject : PyStr) : Bool :=
  conventionalTypes.any fun t =>
    pyStartsWith subject t &&
      (matchColonRest (subject.drop t.length) || matchScope (subject.drop t.length))

/-- ASCII view of the regex class `\w`. -/
def isWordChar (c : Char) : Bool := c.isAlphanum || c = '_'

/-- The past-tense keywords of the imperative-mood heuristic. -/
def pastTenseWords : List PyStr :=
  [lit "added", lit "fixed", lit "changed", lit "updated"]

/-- Match `: (added|fixed|changed|updated)` case-insensitively as a
prefix of `cs`. -/
def matchColonPast : PyStr → Bool
  | ':' :: ' ' :: rest => pastTenseWords.any fun w => pyStartsWith (pyLower rest) w
  | _ => false

/-- Continue inside `\([^)]+\)` after one consumed character: scan to
the first `)`, then require `: (added|...)`. -/
def matchParenTail : PyStr → Bool
  | [] => false
  | c :: rest => if c = ')' then matchColonPast rest else matchParenTail rest

/-- Match `\([^)]+\): (added|...)` as a prefix of `cs`. -/
def matchParen : PyStr → Bool
  | '(' :: c :: rest => c ≠ ')' && matchParenTail (c :: rest)
  | _ => false

/-- `re.match` of the imperative-mood pattern
`^(\w+)(\([^)]+\))?: (added|fixed|changed|updated)` (IGNORECASE)
against the subject.  The `\w+` run is maximal: no character after it
can be both a word character and `(` or `:`. -/
def matchImperativePattern (subject : PyStr) : Bool :=
  let rest := subject.dropWhile isWordChar
  !(subject.takeWhile isWordChar).isEmpty && (matchColonPast rest || matchParen rest)

/-- Error string of the type-prefix check. -/
def typePrefixError : PyStr :=
  lit "Subject must start with a valid type: " ++
  List.intercalate (lit ", ") conventionalTypes

/-- Error string of the subject-length check. -/
def lengthError (maxLen subjectLen : ℕ) : PyStr :=
  lit "Subject exceeds " ++ natToStr maxLen ++ lit " characters (" ++
  natToStr subjectLen ++ lit ")"

/-- Error string of the trailing-period check. -/
def periodError : PyStr := lit "Subject should not end with a period"

/-- Error string of the imperative-mood check. -/
def imperativeError : PyStr := lit "Use imperative mood (add, fix, change) not past tense"

/-- Error string of the blank-separator check. -/
def blankSepError : PyStr := lit "Separate subject from body with a blank line"

/-- Outcome of the type-prefix check (check 1). -/
def check1 (subject : PyStr) : List PyStr :=
  if !matchTypePattern subject then [typePrefixError] else []

/-- Outcome of the subject-length check (check 2). -/
def check2 (maxLen : ℕ) (subject : PyStr) : List PyStr :=
  if maxLen < subject.length then [lengthError maxLen subject.length] else []

/-- Outcome of the trailing-period check (check 3). -/
def check3 (subject : PyStr) : List PyStr :=
  if pyEndsWith subject (lit ".") then [periodError] else []

/-- Outcome of the imperative-mood check (check 4). -/
def check4 (subject : PyStr) : List PyStr :=
  if matchImperativePattern subject then [imperativeError] else []

/-- Outcome of the blank-separator check (check 5):
`len(lines) > 1 and lines[1] != ""`. -/
def check5 (rest : List PyStr) : List PyStr :=
  match rest with
  | [] => []
  | l2 :: _ => if l2.isEmpty then [] else [blankSepError]

/-- `validate_conventional`: split the message, run the five checks on
the subject line in order, and return `(no errors, errors)`.  The
`if not lines` guard of the source is unreachable (`split` never
returns an empty list) but transcribed anyway. -/
def validate_conventional (maxLen : ℕ) (message : PyStr) : Bool × List PyStr :=
  let lines := splitNl message
  match lines with
  | [] => (false, [lit "Message is empty"])
  | subject :: rest =>
    let errors : List PyStr :=
      check1 subject ++ check2 maxLen subject ++ check3 subject ++
      check4 subject ++ check5 rest
    (errors.isEmpty, errors)

/-! ## Retry behaviour of `generate_commit_message`
(`openai_provider.py`, `anthropic_provider.py`, `gemini_provider.py`,
`openrouter_provider.py`; decorator `@retry(...)` from tenacity)

The decorated function body is modelled as a map from the backend's
outcome (a reply, or a raised exception class) to what the body returns
or raises after its own `try/except` handlers run.  The tenacity
decorator is modelled by `runRetry`: attempts are numbered from 1,
`stop_after_attempt(s)` stops after attempt `s`, a retryable failure
sleeps `wait(n)` between attempt `n` and `n + 1`, exhaustion surfaces as
tenacity's `RetryError`, and a non-retryable exception propagates at
once. -/

/-- The exception classes relevant to the adapters, collapsed to the
distinctions the handlers test. -/
inductive PyExcClass where
  | rateLimitExc
  | authExc
  | openAIExc
  | runtimeExc
  | valueExc
  | otherExc
deriving Repr, DecidableEq

/-- `isinstance(e, RateLimitError)`. -/
def isRateLimit (e : PyExcClass) : Bool := e = .rateLimitExc

/-- `isinstance(e, AuthenticationError)`. -/
def isAuth (e : PyExcClass) : Bool := e = .authExc

/-- `isinstance(e, OpenAIError)`: `RateLimitError` and
`AuthenticationError` are subclasses of `OpenAIError` in the OpenAI
SDK (and the Anthropic SDK mirrors the hierarchy). -/
def isOpenAIError (e : PyExcClass) : Bool :=
  e = .rateLimitExc || e = .authExc || e = .openAIExc

/-- One backend call: a reply or a raised exception. -/
inductive ApiOutcome where
  | ok : PyStr → ApiOutcome
  | raiseExc : PyExcClass → ApiOutcome
deriving Repr, DecidableEq

/-- The `try/except` handlers of the OpenAI adapter body:
`except AuthenticationError: raise ValueError`,
`except OpenAIError: raise RuntimeError`. -/
def openaiAttempt (o : ApiOutcome) : Except PyExcClass PyStr :=
  match o with
  | .ok t => .ok t
  | .raiseExc e =>
    if isAuth e then .error .valueExc
    else if isOpenAIError e then .error .runtimeExc
    else .error e

/-- The `try/except` handlers of the OpenRouter adapter body (same
shape as the OpenAI adapter). -/
def openrouterAttempt (o : ApiOutcome) : Except PyExcClass PyStr := openaiAttempt o

/-- The `try/except` handlers of the Anthropic adapter body:
`except AuthenticationError: raise ValueError`,
`except Exception: raise RuntimeError`. -/
def anthropicAttempt (o : ApiOutcome) : Except PyExcClass PyStr :=
  match o with
  | .ok t => .ok t
  | .raiseExc e => if isAuth e then .error .valueExc else .error .runtimeExc

/-- The `try/except` handler of the Gemini adapter body:
`except Exception: raise RuntimeError`. -/
def geminiAttempt (o : ApiOutcome) : Except PyExcClass PyStr :=
  match o with
  | .ok t => .ok t
  | .raiseExc _ => .error .runtimeExc

/-- Result of a tenacity-wrapped call. -/
inductive RetryOutcome (α : Type) where
  | ok : α → RetryOutcome α
  | raised : PyExcClass → RetryOutcome α
  | exhausted : PyExcClass → RetryOutcome α
deriving Repr, DecidableEq

/-- Python `max` on two rationals. -/
def ratMax (a b : ℚ) : ℚ := if a ≤ b then b else a

/-- Python `min` on two rationals. -/
def ratMin (a b : ℚ) : ℚ := if a ≤ b then a else b

/-- tenacity `wait_exponential(multiplier, min, max)` after attempt
number `n`: `max(max(0, min), min(multiplier * 2 ** n, max))`. -/
def waitExponential (multiplier minW maxW : ℚ) (n : ℕ) : ℚ :=
  ratMax (ratMax 0 minW) (ratMin (multiplier * 2 ^ n) maxW)

/-- The retry loop, with the remaining attempt budget as fuel; `n` is
the current attempt number. -/
def runRetryAux {α : Type} (retryPred : PyExcClass → Bool) (waitF : ℕ → ℚ)
    (body : ℕ → Except PyExcClass α) :
    (fuel : ℕ) → (n : ℕ) → RetryOutcome α × ℕ × List ℚ
  | 0, n => (.exhausted .otherExc, n, [])
  | fuel + 1, n =>
    match body n with
    | .ok a => (.ok a, n, [])
    | .error e =>
      if retryPred e then
        if fuel = 0 then (.exhausted e, n, [])
        else
          let r := runRetryAux retryPred waitF body fuel (n + 1)
          (r.1, r.2.1, waitF n :: r.2.2)
      else (.raised e, n, [])

/-- A tenacity-decorated call with `stop_after_attempt(stopAfter)`:
returns the outcome, the number of attempts made, and the waits slept
between attempts. -/
def runRetry {α : Type} (retryPred : PyExcClass → Bool) (waitF : ℕ → ℚ)
    (stopAfter : ℕ) (body : ℕ → Except PyExcClass α) : RetryOutcome α × ℕ × List ℚ :=
  runRetryAux retryPred waitF body stopAfter 1

/-- `retry_if_exception_type(RateLimitError)`. -/
def retryIfRateLimit (e : PyExcClass) : Bool := isRateLimit e

/-- tenacity's default retry predicate: retry on any `Exception`. -/
def retryAlways (_ : PyExcClass) : Bool := true

/-- `wait_exponential(multiplier=1, min=2, max=10)` as configured on
every adapter. -/
def tenacityWait : ℕ → ℚ := waitExponential 1 2 10

/-- `OpenAIProvider.generate_commit_message` under its decorator
`@retry(stop_after_attempt(3), wait_exponential(1, 2, 10),
retry_if_exception_type(RateLimitError))`, as a function of the
backend's per-attempt outcomes. -/
def openaiGenerate (backend : ℕ → ApiOutcome) : RetryOutcome PyStr × ℕ × List ℚ :=
  runRetry retryIfRateLimit tenacityWait 3 fun n => openaiAttempt (backend n)

/-- `OpenRouterProvider.generate_commit_message` under the identical
decorator. -/
def openrouterGenerate (backend : ℕ → ApiOutcome) : RetryOutcome PyStr × ℕ × List ℚ :=
  runRetry retryIfRateLimit tenacityWait 3 fun n => openrouterAttempt (backend n)

/-- `AnthropicProvider.generate_commit_message` under the identical
decorator. -/
def anthropicGenerate (backend : ℕ → ApiOutcome) : RetryOutcome PyStr × ℕ × List ℚ :=
  runRetry retryIfRateLimit tenacityWait 3 fun n => anthropicAttempt (backend n)

/-- `GeminiProvider.generate_commit_message` under its decorator
`@retry(stop_after_attempt(3), wait_exponential(1, 2, 10))` — note the
missing retry predicate: tenacity then retries every exception. -/
def geminiGenerate (backend : ℕ → ApiOutcome) : RetryOutcome PyStr × ℕ × List ℚ :=
  runRetry retryAlways tenacityWait 3 fun n => geminiAttempt (backend n)

/-! ## Cost estimation (`ai_providers/base.py`, `_calculate_cost`) -/

/-- The per-1K-token price table, in source (insertion) order:
`(key, input price, output price)`. -/
def pricingTable : List (PyStr × ℚ × ℚ) :=
  [(lit "gpt-4", 3/100, 6/100),
   (lit "gpt-4-turbo", 1/100, 3/100),
   (lit "gpt-3.5-turbo", 5/10000, 15/10000),
   (lit "claude-3-opus", 15/1000, 75/1000),
   (lit "claude-3-sonnet", 3/1000, 15/1000),
   (lit "claude-3-haiku", 25/100000, 125/100000),
   (lit "gemini-pro", 25/100000, 5/10000),
   (lit "gemini-ultra", 1/1000, 2/1000)]

/-- The price-table scan: first entry whose key occurs as a substring
of the lower-cased model name. -/
def lookupPricing (model : PyStr) : Option (ℚ × ℚ) :=
  (pricingTable.find? fun e => pyContains (pyLower model) e.1).map Prod.snd

/-- `_calculate_cost`: split the token count 70/30 (truncating), price
each side per 1000 tokens, or fall back to a flat default rate. -/
def calculateCost (tokens : ℕ) (model : PyStr) : ℚ :=
  match lookupPricing model with
  | some (pin, pout) =>
    let inputTokens : ℤ := ⌊(tokens : ℚ) * (7/10)⌋
    let outputTokens : ℤ := ⌊(tokens : ℚ) * (3/10)⌋
    inputTokens * pin / 1000 + outputTokens * pout / 1000
  | none => (tokens : ℚ) * (2/1000) / 1000

/-! ## Usage ledger (`usage_tracker.py`)

The SQLite table is modelled as the list of its rows in insertion
order; the `timestamp >= ?` comparison is SQLite TEXT comparison,
i.e. lexicographic order on the ISO-8601 strings. -/

/-- One row of the `usage` table. -/
structure UsageRecord where
  timestamp : PyStr
  provider : PyStr
  model : PyStr
  tokens : ℕ
  cost : ℚ
  success : Bool
deriving Repr, DecidableEq

/-- The ledger: rows in insertion order. -/
abbrev Ledger := List UsageRecord

/-- `record_usage`: append one row. -/
def record_usage (ledger : Ledger) (nowIso provider model : PyStr)
    (tokens : ℕ) (cost : ℚ) (success : Bool) : Ledger :=
  ledger ++ [⟨nowIso, provider, model, tokens, cost, success⟩]

/-- SQLite TEXT comparison `a <= b`: lexicographic on code points. -/
def strLe : PyStr → PyStr → Bool
  | [], _ => true
  | _ :: _, [] => false
  | a :: as, b :: bs => if a = b then strLe as bs else decide (a < b)

/-- Python `round(x)` to an integer, half to even (modelled exactly on
rationals). -/
def roundHalfEven (q : ℚ) : ℤ :=
  if q - ⌊q⌋ < 1/2 then ⌊q⌋
  else if 1/2 < q - ⌊q⌋ then ⌊q⌋ + 1
  else if ⌊q⌋ % 2 = 0 then ⌊q⌋ else ⌊q⌋ + 1

/-- Python `round(x, 4)`. -/
def round4 (q : ℚ) : ℚ := (roundHalfEven (q * 10000) : ℚ) / 10000

/-- Sum of the `cost` column. -/
def sumCosts (rs : Ledger) : ℚ := (rs.map UsageRecord.cost).sum

/-- Sum of the `tokens` column. -/
def sumTokens (rs : Ledger) : ℕ := (rs.map UsageRecord.tokens).sum

/-- The rows selected by `WHERE timestamp >= first_day`. -/
def monthRecords (ledger : Ledger) (firstDayIso : PyStr) : Ledger :=
  ledger.filter fun r => strLe firstDayIso r.timestamp

/-- Aggregates returned by `get_monthly_usage` (the presentational
month label is omitted). -/
structure MonthlyUsage where
  requests : ℕ
  tokens : ℕ
  cost : ℚ
deriving Repr, DecidableEq

/-- `get_monthly_usage`: count/sum over the current month's rows, cost
rounded to 4 decimal places (`round(row[2] or 0, 4)`). -/
def get_monthly_usage (ledger : Ledger) (firstDayIso : PyStr) : MonthlyUsage :=
  let rs := monthRecords ledger firstDayIso
  { requests := rs.length, tokens := sumTokens rs, cost := round4 (sumCosts rs) }

/-- Aggregates returned by `get_total_usage`. -/
structure TotalUsage where
  requests : ℕ
  tokens : ℕ
  cost : ℚ
  successes : ℕ
deriving Repr, DecidableEq

/-- `get_total_usage`: whole-table aggregates, cost rounded to 4
decimal places. -/
def get_total_usage (ledger : Ledger) : TotalUsage :=
  { requests := ledger.length, tokens := sumTokens ledger,
    cost := round4 (sumCosts ledger),
    successes := (ledger.filter UsageRecord.success).length }

/-- One row of the per-provider aggregate, before rounding. -/
structure ProviderRow where
  provider : PyStr
  model : PyStr
  requests : ℕ
  tokens : ℕ
  rawCost : ℚ
deriving Repr, DecidableEq

/-- One entry returned by `get_usage_by_provider`. -/
structure ProviderUsage where
  provider : PyStr
  model : PyStr
  requests : ℕ
  tokens : ℕ
  cost : ℚ
deriving Repr, DecidableEq

/-- The rows of one `GROUP BY provider, model` group. -/
def groupRecords (ledger : Ledger) (k : PyStr × PyStr) : Ledger :=
  ledger.filter fun r => r.provider == k.1 && r.model == k.2

/-- The distinct `(provider, model)` keys, in first-occurrence order. -/
def providerKeys (ledger : Ledger) : List (PyStr × PyStr) :=
  (ledger.map fun r => (r.provider, r.model)).dedup

/-- `get_usage_by_provider`: group by `(provider, model)`, order by
descending raw summed cost (`ORDER BY cost DESC` runs on the SQL sums),
then round each group's cost to 4 decimal places in Python. -/
def get_usage_by_provider (ledger : Ledger) : List ProviderUsage :=
  let rows : List ProviderRow := (providerKeys ledger).map fun k =>
    { provider := k.1, model := k.2,
      requests := (groupRecords ledger k).length,
      tokens := sumTokens (groupRecords ledger k),
      rawCost := sumCosts (groupRecords ledger k) }
  let sorted := rows.mergeSort fun a b => decide (b.rawCost ≤ a.rawCost)
  sorted.map fun r =>
    { provider := r.provider, model := r.model, requests := r.requests,
      tokens := r.tokens, cost := round4 r.rawCost }

/-- `check_monthly_limit`: compare the rounded monthly cost with the
limit (`current_cost >= limit`). -/
def check_monthly_limit (ledger : Ledger) (firstDayIso : PyStr) (limit : ℚ) :
    Bool × ℚ :=
  let cost := (get_monthly_usage ledger firstDayIso).cost
  (decide (limit ≤ cost), cost)

/-! ## Staged-diff line counting (`git_operations.py`, `get_staged_diff`) -/

/-- `max(0, full_diff.count("\n+") - full_diff.count("\n+++"))`. -/
def stagedAdditions (fullDiff : PyStr) : ℕ :=
  (max 0 ((pyCount fullDiff (lit "\n+") : ℤ) - (pyCount fullDiff (lit "\n+++") : ℤ))).toNat

/-- `max(0, full_diff.count("\n-") - full_diff.count("\n---"))`. -/
def stagedDeletions (fullDiff : PyStr) : ℕ :=
  (max 0 ((pyCount fullDiff (lit "\n-") : ℤ) - (pyCount fullDiff (lit "\n---") : ℤ))).toNat

/-! ## Helper views used in theorem statements -/

/-- The subject extracted by the parser loop before truncation. -/
def rawSubjectOf (text : PyStr) : PyStr :=
  (parseLoop (splitNl (pyStrip text)) ⟨[], false, false, [], []⟩).subject

/-- The blank-line-plus-block segment `format` contributes for a truthy
optional field. -/
def blockSeg (o : Option PyStr) : PyStr :=
  match o with
  | some b => if b.isEmpty then [] else '\n' :: '\n' :: b
  | none => []

/-- A field is in stripped form whenever it is present. -/
def StrippedField (o : Option PyStr) : Prop := ∀ s, o = some s → pyStrip s = s

/-- Modelled from the claim under examination, not from the source:
the body that §4.3 of the spec prescribes — the lines between subject
and footer start with every blank line dropped, joined verbatim. -/
def claimedBody (text : PyStr) : Option PyStr :=
  let lines := splitNl (pyStrip text)
  let bodyLines := (bodyPartOf lines).filter fun l => !isBlankLine l
  if bodyLines.isEmpty then none else some (joinNl bodyLines)

/-- Positional occurrence count: the number of positions of `s` at
which `pat` occurs (proof-side view of `pyCount`). -/
def countPos : PyStr → PyStr → ℕ
  | [], _ => 0
  | c :: rest, pat => (if pat.isPrefixOf (c :: rest) then 1 else 0) + countPos rest pat

/-! ## General lemmas -/

theorem splitNl_ne_nil (s : PyStr) : splitNl s ≠ [] := by
  cases s with
  | nil => simp [splitNl]
  | cons c rest =>
    rcases h : splitNl rest with _ | ⟨l, ls⟩
    · simp [splitNl, h]
    · simp only [splitNl, h]
      split <;> simp

/-! ## C5: prompt-builder diff truncation -/

/-- C5: for every diff string, the prompt built by `build_commit_prompt`
is a fixed prefix, then the truncated diff, then a fixed suffix; a diff
of at most 3000 characters is included in full and unmodified, while a
longer diff contributes exactly its first 3000 characters followed by
the truncation marker. -/
theorem c5_prompt_truncates_diff (diff : PyStr) (filesChanged : List PyStr)
    (additions deletions : ℕ) (changeTypes : List (PyStr × PyStr))
    (includeEmoji : Bool) :
    build_commit_prompt diff filesChanged additions deletions changeTypes includeEmoji =
      promptPrefix filesChanged additions deletions changeTypes ++
        truncatedDiffOf diff ++ promptSuffix includeEmoji ∧
    (diff.length ≤ 3000 → truncatedDiffOf diff = diff) ∧
    (3000 < diff.length →
      truncatedDiffOf diff = diff.take 3000 ++ lit "\n\n... (diff truncated)" ∧
      (diff.take 3000).length = 3000) := by
  refine ⟨rfl, ?_, ?_⟩
  · intro h
    simp only [truncatedDiffOf]
    rw [if_neg (by omega), List.take_of_length_le h, List.append_nil]
  · intro h
    refine ⟨by simp [truncatedDiffOf, h], ?_⟩
    simp [List.length_take, Nat.min_eq_left (le_of_lt h)]

/-- Witness for C5 at a concrete 3001-character diff. -/
theorem c5_prompt_truncates_diff_witness :
    truncatedDiffOf (List.replicate 3001 'a') =
      (List.replicate 3001 'a').take 3000 ++ lit "\n\n... (diff truncated)" ∧
    ((List.replicate 3001 'a').take 3000).length = 3000 :=
  (c5_prompt_truncates_diff (List.replicate 3001 'a') [] 0 0 [] false).2.2
    (by simp only [List.length_replicate]; omega)

/-! ## C3: subject truncation -/

theorem truncateSubject_long {maxLen : ℕ} (h3 : 3 ≤ maxLen) {s : PyStr}
    (h : maxLen < s.length) :
    (truncateSubject maxLen s).length = maxLen ∧
    pyEndsWith (truncateSubject maxLen s) (lit "...") = true := by
  have hk : (0 : ℤ) ≤ (maxLen : ℤ) - 3 := by omega
  have hslice : pySliceTo s ((maxLen : ℤ) - 3) = s.take (maxLen - 3) := by
    simp only [pySliceTo, if_pos hk]
    congr 1
    omega
  constructor
  · simp only [truncateSubject, if_pos h, hslice, List.length_append, List.length_take]
    have : maxLen - 3 ≤ s.length := by omega
    simp [Nat.min_eq_left this, lit]
    omega
  · simp only [truncateSubject, if_pos h, pyEndsWith, List.isSuffixOf_iff_suffix]
    exact List.suffix_append _ _

theorem truncateSubject_short {maxLen : ℕ} {s : PyStr} (h : s.length ≤ maxLen) :
    truncateSubject maxLen s = s := by
  simp [truncateSubject, Nat.not_lt.mpr h]

/-- C3: for every raw response whose parsed subject is longer than the
configured maximum (at least 3), the returned message's subject has
length exactly the maximum and ends with `...`; a subject not
exceeding the maximum is returned unchanged. -/
theorem c3_subject_truncation (maxLen : ℕ) (text : PyStr) (tokens : ℕ) (cost : ℚ)
    (h3 : 3 ≤ maxLen) :
    (maxLen < (rawSubjectOf text).length →
      (parseMessage maxLen text tokens cost).subject.length = maxLen ∧
      pyEndsWith (parseMessage maxLen text tokens cost).subject (lit "...") = true) ∧
    ((rawSubjectOf text).length ≤ maxLen →
      (parseMessage maxLen text tokens cost).subject = rawSubjectOf text) := by
  have hsub : (parseMessage maxLen text tokens cost).subject =
      truncateSubject maxLen (rawSubjectOf text) := rfl
  constructor
  · intro h
    rw [hsub]
    exact truncateSubject_long h3 h
  · intro h
    rw [hsub]
    exact truncateSubject_short h

/-- Witness for C3 at a concrete over-long subject. -/
theorem c3_subject_truncation_witness :
    (parseMessage 10 (lit "feat: abcdefgh") 0 0).subject.length = 10 ∧
    pyEndsWith (parseMessage 10 (lit "feat: abcdefgh") 0 0).subject (lit "...") = true :=
  (c3_subject_truncation 10 (lit "feat: abcdefgh") 0 0 (by decide)).1 (by decide)

/-! ## C6: conventional-commit validation -/

/-- C6: `validate_conventional` runs its five checks independently —
the error list is always the concatenation of the five per-check
results on the split message — and on `"feat(x): add thing"` it is
valid with no errors while on `"updated stuff."` it is invalid with
exactly the missing-type-prefix error and the trailing-period error. -/
theorem c6_validate_conventional_checks :
    validate_conventional 72 (lit "feat(x): add thing") = (true, []) ∧
    validate_conventional 72 (lit "updated stuff.") =
      (false, [typePrefixError, periodError]) ∧
    ∀ (maxLen : ℕ) (message : PyStr),
      (validate_conventional maxLen message).2 =
        check1 (splitNl message).headI ++ check2 maxLen (splitNl message).headI ++
        check3 (splitNl message).headI ++ check4 (splitNl message).headI ++
        check5 (splitNl message).tail ∧
      (validate_conventional maxLen message).1 =
        (validate_conventional maxLen message).2.isEmpty := by
  refine ⟨by decide, by decide, ?_⟩
  intro maxLen message
  rcases h : splitNl message with _ | ⟨subj, rest⟩
  · exact absurd h (splitNl_ne_nil message)
  · simp [validate_conventional, h]

/-! ## C2: retry behaviour of the provider adapters

The decorators request retry-on-rate-limit, but the bodies' own
`except` clauses wrap every backend exception (`RateLimitError`
included) into `ValueError`/`RuntimeError` before tenacity's
`retry_if_exception_type(RateLimitError)` can observe it, so the
OpenAI, OpenRouter and Anthropic adapters never retry; the Gemini
decorator has no retry predicate at all, so it retries every failure
up to 3 attempts with waits 2s and 4s. -/

/-- C2: on a backend that signals a rate limit on every attempt, the
OpenAI, OpenRouter and Anthropic adapters make exactly one attempt and
raise `RuntimeError` (no retry), and on a backend that fails with a
non-rate-limit error on every attempt, the Gemini adapter retries to
exhaustion: 3 attempts with exponential waits. -/
theorem c2_rate_limit_not_retried :
    openaiGenerate (fun _ => .raiseExc .rateLimitExc) =
      (.raised .runtimeExc, 1, ([] : List ℚ)) ∧
    openrouterGenerate (fun _ => .raiseExc .rateLimitExc) =
      (.raised .runtimeExc, 1, ([] : List ℚ)) ∧
    anthropicGenerate (fun _ => .raiseExc .rateLimitExc) =
      (.raised .runtimeExc, 1, ([] : List ℚ)) ∧
    geminiGenerate (fun _ => .raiseExc .openAIExc) =
      (.exhausted .runtimeExc, 3, [(2 : ℚ), 4]) := by
  have w1 : tenacityWait 1 = 2 := by
    norm_num [tenacityWait, waitExponential, ratMax, ratMin]
  have w2 : tenacityWait 2 = 4 := by
    norm_num [tenacityWait, waitExponential, ratMax, ratMin]
  refine ⟨by decide, by decide, by decide, ?_⟩
  simp [geminiGenerate, runRetry, runRetryAux, geminiAttempt, retryAlways, w1, w2]

/-! ## Rounding lemmas -/

theorem round4_zero : round4 0 = 0 := by
  norm_num [round4, roundHalfEven]

theorem round4_small {q : ℚ} (h0 : 0 ≤ q) (h : q < 1 / 20000) : round4 q = 0 := by
  have hfl : ⌊q * 10000⌋ = 0 := by
    rw [Int.floor_eq_zero_iff]
    constructor
    · positivity
    · nlinarith
  simp only [round4, roundHalfEven, hfl, Int.cast_zero, sub_zero]
  rw [if_pos (by nlinarith : q * 10000 < 1 / 2)]
  norm_num

theorem round4_five : round4 5 = 5 := by
  have hfl : ⌊(5 : ℚ) * 10000⌋ = 50000 := by norm_num
  simp only [round4, roundHalfEven, hfl]
  norm_num

/-! ## C8: the monthly cost limit check -/

/-- C8: `check_monthly_limit` returns the pair of "the current month's
aggregate (rounded) cost has reached the limit" and that cost; on a
ledger with no records in the current month it returns `(false, 0)`
for any positive limit, and after recording a single success with
cost 5.0 it returns `(true, 5.0)` for limit 5.0. -/
theorem c8_check_monthly_limit :
    (∀ (ledger : Ledger) (firstDay : PyStr) (limit : ℚ),
      check_monthly_limit ledger firstDay limit =
        (decide (limit ≤ round4 (sumCosts (monthRecords ledger firstDay))),
         round4 (sumCosts (monthRecords ledger firstDay)))) ∧
    (∀ (ledger : Ledger) (firstDay : PyStr) (limit : ℚ),
      monthRecords ledger firstDay = [] → 0 < limit →
      check_monthly_limit ledger firstDay limit = (false, 0)) ∧
    (∀ (firstDay now provider model : PyStr) (tokens : ℕ),
      strLe firstDay now = true →
      check_monthly_limit (record_usage [] now provider model tokens 5 true)
        firstDay 5 = (true, 5)) := by
  refine ⟨fun ledger firstDay limit => rfl, ?_, ?_⟩
  · intro ledger firstDay limit hempty hpos
    have hc : (get_monthly_usage ledger firstDay).cost = 0 := by
      simp [get_monthly_usage, hempty, sumCosts, round4_zero]
    simp only [check_monthly_limit, hc]
    rw [decide_eq_false (not_le.mpr hpos)]
  · intro firstDay now provider model tokens hle
    have hm : monthRecords (record_usage [] now provider model tokens 5 true) firstDay =
        [⟨now, provider, model, tokens, 5, true⟩] := by
      simp [monthRecords, record_usage, List.filter, hle]
    simp only [check_monthly_limit, get_monthly_usage, hm]
    simp [sumCosts, round4_five]

/-- Witness for C8 on a concrete empty and a concrete one-record
ledger. -/
theorem c8_check_monthly_limit_witness :
    check_monthly_limit [] (lit "2026-10-01T00:00:00") 1 = (false, 0) ∧
    check_monthly_limit
      (record_usage [] (lit "2026-10-05T12:00:00") (lit "openai") (lit "gpt-4")
        100 5 true)
      (lit "2026-10-01T00:00:00") 5 = (true, 5) :=
  ⟨c8_check_monthly_limit.2.1 [] (lit "2026-10-01T00:00:00") 1 rfl (by norm_num),
   c8_check_monthly_limit.2.2 (lit "2026-10-01T00:00:00") (lit "2026-10-05T12:00:00")
     (lit "openai") (lit "gpt-4") 100 (by decide)⟩

/-! ## C10: aggregate queries round the summed cost -/

/-- C10: every ledger aggregate query (totals, monthly, per
provider/model group) returns the summed cost rounded to 4 decimal
places, and `check_monthly_limit` compares this rounded monthly cost
against the limit: a month whose costs sum to a value in `[0, 0.00005)`
is reported as cost 0 and, for any positive limit, as not having
reached the limit. -/
theorem c10_aggregates_round_cost :
    (∀ (ledger : Ledger) (firstDay : PyStr),
      (get_monthly_usage ledger firstDay).cost =
        round4 (sumCosts (monthRecords ledger firstDay))) ∧
    (∀ ledger : Ledger, (get_total_usage ledger).cost = round4 (sumCosts ledger)) ∧
    (∀ (ledger : Ledger) (e : ProviderUsage), e ∈ get_usage_by_provider ledger →
      e.cost = round4 (sumCosts (groupRecords ledger (e.provider, e.model)))) ∧
    (∀ (ledger : Ledger) (firstDay : PyStr),
      0 ≤ sumCosts (monthRecords ledger firstDay) →
      sumCosts (monthRecords ledger firstDay) < 1 / 20000 →
      (get_monthly_usage ledger firstDay).cost = 0 ∧
      ∀ limit : ℚ, 0 < limit →
        check_monthly_limit ledger firstDay limit = (false, 0)) := by
  refine ⟨fun ledger firstDay => rfl, fun ledger => rfl, ?_, ?_⟩
  · intro ledger e he
    simp only [get_usage_by_provider, List.mem_map] at he
    obtain ⟨r, hr, rfl⟩ := he
    have hr' := (List.mergeSort_perm _ _).mem_iff.mp hr
    simp only [List.mem_map] at hr'
    obtain ⟨k, _, rfl⟩ := hr'
    simp [groupRecords]
  · intro ledger firstDay h0 hsmall
    have hc : (get_monthly_usage ledger firstDay).cost = 0 := by
      simp only [get_monthly_usage]
      exact round4_small h0 hsmall
    refine ⟨hc, fun limit hpos => ?_⟩
    simp only [check_monthly_limit, hc]
    rw [decide_eq_false (not_le.mpr hpos)]

/-- Witness for C10 on a concrete ledger whose monthly cost sum is
positive but below half of the rounding step. -/
theorem c10_aggregates_round_cost_witness :
    (get_monthly_usage
      [⟨lit "2026-10-05T12:00:00", lit "openai", lit "gpt-4", 3, 1 / 30000, true⟩]
      (lit "2026-10-01T00:00:00")).cost = 0 ∧
    check_monthly_limit
      [⟨lit "2026-10-05T12:00:00", lit "openai", lit "gpt-4", 3, 1 / 30000, true⟩]
      (lit "2026-10-01T00:00:00") 1 = (false, 0) := by
  have hs : sumCosts (monthRecords
      [⟨lit "2026-10-05T12:00:00", lit "openai", lit "gpt-4", 3, 1 / 30000, true⟩]
      (lit "2026-10-01T00:00:00")) = 1 / 30000 := by
    have hm : monthRecords
        [⟨lit "2026-10-05T12:00:00", lit "openai", lit "gpt-4", 3, 1 / 30000, true⟩]
        (lit "2026-10-01T00:00:00") =
        [⟨lit "2026-10-05T12:00:00", lit "openai", lit "gpt-4", 3, 1 / 30000, true⟩] := rfl
    rw [hm]
    simp [sumCosts]
  have h := c10_aggregates_round_cost.2.2.2
    [⟨lit "2026-10-05T12:00:00", lit "openai", lit "gpt-4", 3, 1 / 30000, true⟩]
    (lit "2026-10-01T00:00:00")
    (by rw [hs]; norm_num) (by rw [hs]; norm_num)
  exact ⟨h.1, h.2 1 (by norm_num)⟩

/-! ## C7: cost estimation is monotonic in the token count -/

theorem pricing_nonneg : ∀ e ∈ pricingTable, 0 ≤ e.2.1 ∧ 0 ≤ e.2.2 := by
  intro e he
  simp only [pricingTable, List.mem_cons, List.not_mem_nil, or_false] at he
  rcases he with rfl | rfl | rfl | rfl | rfl | rfl | rfl | rfl <;>
    exact ⟨by norm_num, by norm_num⟩

theorem lookupPricing_nonneg {model : PyStr} {pin pout : ℚ}
    (h : lookupPricing model = some (pin, pout)) : 0 ≤ pin ∧ 0 ≤ pout := by
  simp only [lookupPricing, Option.map_eq_some'] at h
  obtain ⟨e, he, hev⟩ := h
  have hmem := List.mem_of_find?_eq_some he
  have := pricing_nonneg e hmem
  rw [hev] at this
  exact this

theorem calculateCost_mono (model : PyStr) (t₁ t₂ : ℕ) (h : t₁ ≤ t₂) :
    calculateCost t₁ model ≤ calculateCost t₂ model := by
  have hc : (t₁ : ℚ) ≤ (t₂ : ℚ) := by exact_mod_cast h
  cases hl : lookupPricing model with
  | none =>
    simp only [calculateCost, hl]
    gcongr
  | some p =>
    obtain ⟨pin, pout⟩ := p
    obtain ⟨hpin, hpout⟩ := lookupPricing_nonneg hl
    simp only [calculateCost, hl]
    have h7 : ((⌊(t₁ : ℚ) * (7 / 10)⌋ : ℤ) : ℚ) ≤ ((⌊(t₂ : ℚ) * (7 / 10)⌋ : ℤ) : ℚ) := by
      exact_mod_cast Int.floor_le_floor (by gcongr)
    have h3 : ((⌊(t₁ : ℚ) * (3 / 10)⌋ : ℤ) : ℚ) ≤ ((⌊(t₂ : ℚ) * (3 / 10)⌋ : ℤ) : ℚ) := by
      exact_mod_cast Int.floor_le_floor (by gcongr)
    gcongr

/-- C7: for a fixed model name, the estimated cost is non-decreasing in
the token count; in particular doubling the token count never decreases
the estimate. -/
theorem c7_cost_monotonic :
    (∀ (model : PyStr) (t₁ t₂ : ℕ), t₁ ≤ t₂ →
      calculateCost t₁ model ≤ calculateCost t₂ model) ∧
    (∀ (model : PyStr) (t : ℕ), calculateCost t model ≤ calculateCost (2 * t) model) :=
  ⟨calculateCost_mono,
   fun model t => calculateCost_mono model t (2 * t) (by omega)⟩

/-- Witness for C7 at a concrete model and token counts. -/
theorem c7_cost_monotonic_witness :
    100 ≤ 200 ∧ calculateCost 100 (lit "gpt-4") ≤ calculateCost 200 (lit "gpt-4") :=
  ⟨by norm_num, c7_cost_monotonic.1 (lit "gpt-4") 100 200 (by norm_num)⟩

/-! ## C4: formatting a message -/

theorem dropWhile_length_le (p : Char → Bool) (l : PyStr) :
    (l.dropWhile p).length ≤ l.length := by
  induction l with
  | nil => simp
  | cons a t ih =>
    rw [List.dropWhile_cons]
    split
    · exact le_trans ih (by simp)
    · simp

theorem pyStrip_length_le (s : PyStr) : (pyStrip s).length ≤ s.length := by
  simp only [pyStrip, List.length_reverse]
  calc ((s.dropWhile pyIsSpace).reverse.dropWhile pyIsSpace).length
      ≤ (s.dropWhile pyIsSpace).reverse.length := dropWhile_length_le _ _
    _ = (s.dropWhile pyIsSpace).length := List.length_reverse _
    _ ≤ s.length := dropWhile_length_le _ _

theorem pyStrip_head_not_space {s : PyStr} (h : pyStrip s = s) {c : Char}
    (hc : s.head? = some c) : pyIsSpace c = false := by
  by_contra hb
  have hb' : pyIsSpace c = true := by
    cases hx : pyIsSpace c
    · exact absurd hx hb
    · rfl
  obtain ⟨cs, rfl⟩ : ∃ cs, s = c :: cs := by
    cases s with
    | nil => simp at hc
    | cons a t =>
      simp only [List.head?_cons, Option.some.injEq] at hc
      exact ⟨t, by rw [hc]⟩
  have h1 : (pyStrip (c :: cs)).length ≤ cs.length := by
    simp only [pyStrip, List.dropWhile_cons, hb', if_pos, List.length_reverse]
    calc ((cs.dropWhile pyIsSpace).reverse.dropWhile pyIsSpace).length
        ≤ (cs.dropWhile pyIsSpace).reverse.length := dropWhile_length_le _ _
      _ = (cs.dropWhile pyIsSpace).length := List.length_reverse _
      _ ≤ cs.length := dropWhile_length_le _ _
  rw [h] at h1
  rw [List.length_cons] at h1
  omega

theorem pyStrip_getLast_not_space {s : PyStr} (h : pyStrip s = s) {c : Char}
    (hc : s.getLast? = some c) : pyIsSpace c = false := by
  by_contra hb
  have hb' : pyIsSpace c = true := by
    cases hx : pyIsSpace c
    · exact absurd hx hb
    · rfl
  have hne : s ≠ [] := by rintro rfl; simp at hc
  cases hin : s.dropWhile pyIsSpace with
  | nil =>
    have hempty : pyStrip s = [] := by simp [pyStrip, hin]
    rw [h] at hempty
    exact hne hempty
  | cons a as =>
    have hsuf : s.dropWhile pyIsSpace <:+ s := List.dropWhile_suffix _
    obtain ⟨pre, hpre⟩ := hsuf
    have hlast : (s.dropWhile pyIsSpace).getLast? = some c := by
      have hx : (s.dropWhile pyIsSpace).getLast? ≠ none := by
        rw [hin]
        simp
      rw [← hpre, List.getLast?_append] at hc
      cases hy : (s.dropWhile pyIsSpace).getLast? with
      | none => exact absurd hy hx
      | some d =>
        rw [hy] at hc
        have hd : d = c := by simpa using hc
        rw [hd]
    obtain ⟨t, ht⟩ : ∃ t, (s.dropWhile pyIsSpace).reverse = c :: t := by
      have : (s.dropWhile pyIsSpace).reverse.head? = some c := by
        rw [List.head?_reverse]; exact hlast
      cases hx : (s.dropWhile pyIsSpace).reverse with
      | nil => rw [hx] at this; simp at this
      | cons d u =>
        rw [hx] at this
        simp only [List.head?_cons, Option.some.injEq] at this
        exact ⟨u, by rw [this]⟩
    have hlen : (pyStrip s).length < s.length := by
      have hlt : t.length < s.length := by
        have h1 : t.length + 1 = (s.dropWhile pyIsSpace).length := by
          have := congrArg List.length ht
          simpa [List.length_reverse] using this.symm
        have h2 : (s.dropWhile pyIsSpace).length ≤ s.length := dropWhile_length_le _ _
        omega
      calc (pyStrip s).length
          = ((s.dropWhile pyIsSpace).reverse.dropWhile pyIsSpace).length := by
            simp [pyStrip, List.length_reverse]
        _ = ((c :: t).dropWhile pyIsSpace).length := by rw [ht]
        _ = (t.dropWhile pyIsSpace).length := by rw [List.dropWhile_cons, if_pos hb']
        _ ≤ t.length := dropWhile_length_le _ _
        _ < s.length := hlt
    rw [h] at hlen
    omega

theorem joinNl_single (s : PyStr) : joinNl [s] = s := by
  simp [joinNl, List.intercalate]

theorem joinNl_blank_block (a b : PyStr) : joinNl [a, [], b] = a ++ '\n' :: '\n' :: b := by
  simp [joinNl, List.intercalate, List.intersperse]

theorem joinNl_two_blank_blocks (a b c : PyStr) :
    joinNl [a, [], b, [], c] = a ++ '\n' :: '\n' :: (b ++ '\n' :: '\n' :: c) := by
  simp [joinNl, List.intercalate, List.intersperse]

/-- C4: `format` yields the subject, then (iff a truthy body is
present) a blank line and the body, then (iff a truthy footer is
present) a blank line and the footer; on a message with only a subject
it returns exactly the subject; and for messages whose present fields
are stripped and whose subject is non-empty (as the parser produces
them) the result has no dangling blank: its first and last characters
are non-whitespace. -/
theorem c4_format_shape (subject : PyStr) (body footer : Option PyStr)
    (raw : PyStr) (tokens : ℕ) (cost : ℚ) (prov mdl : PyStr) :
    (CommitMessage.mk subject body footer raw tokens cost prov mdl).format =
      subject ++ blockSeg body ++ blockSeg footer ∧
    (body = none → footer = none →
      (CommitMessage.mk subject body footer raw tokens cost prov mdl).format = subject) ∧
    (pyStrip subject = subject → subject ≠ [] →
      StrippedField body → StrippedField footer →
      (∀ c, (CommitMessage.mk subject body footer raw tokens cost prov mdl).format.head? =
        some c → pyIsSpace c = false) ∧
      (∀ c, (CommitMessage.mk subject body footer raw tokens cost prov mdl).format.getLast? =
        some c → pyIsSpace c = false)) := by
  have hstruct : (CommitMessage.mk subject body footer raw tokens cost prov mdl).format =
      subject ++ blockSeg body ++ blockSeg footer := by
    rcases body with _ | b <;> rcases footer with _ | f
    · simp [CommitMessage.format, blockSeg, joinNl_single]
    · by_cases hf : f.isEmpty
      · simp [CommitMessage.format, blockSeg, hf, joinNl_single]
      · simp [CommitMessage.format, blockSeg, hf, joinNl_blank_block]
    · by_cases hb : b.isEmpty
      · simp [CommitMessage.format, blockSeg, hb, joinNl_single]
      · simp [CommitMessage.format, blockSeg, hb, joinNl_blank_block]
    · by_cases hb : b.isEmpty <;> by_cases hf : f.isEmpty
      · simp [CommitMessage.format, blockSeg, hb, hf, joinNl_single]
      · simp [CommitMessage.format, blockSeg, hb, hf, joinNl_blank_block]
      · simp [CommitMessage.format, blockSeg, hb, hf, joinNl_blank_block]
      · simp [CommitMessage.format, blockSeg, hb, hf, joinNl_two_blank_blocks,
          List.append_assoc]
  refine ⟨hstruct, ?_, ?_⟩
  · rintro rfl rfl
    rw [hstruct]
    simp [blockSeg]
  · intro hsubj hsne hbody hfoot
    constructor
    · intro c hc
      rw [hstruct] at hc
      obtain ⟨c0, cs, rfl⟩ : ∃ c0 cs, subject = c0 :: cs := by
        cases subject with
        | nil => exact absurd rfl hsne
        | cons a t => exact ⟨a, t, rfl⟩
      simp only [List.cons_append, List.head?_cons, Option.some.injEq] at hc
      rw [← hc]
      exact pyStrip_head_not_space hsubj (by simp)
    · intro c hc
      rw [hstruct] at hc
      rcases hfcase : footer with _ | f
      · rcases hbcase : body with _ | b
        · subst hfcase hbcase
          simp only [blockSeg, List.append_nil] at hc
          exact pyStrip_getLast_not_space hsubj hc
        · subst hfcase hbcase
          by_cases hb : b.isEmpty
          · simp only [blockSeg, hb, if_pos, List.append_nil] at hc
            exact pyStrip_getLast_not_space hsubj hc
          · simp only [blockSeg, hb, if_neg, Bool.false_eq_true, not_false_iff,
              List.append_nil] at hc
            have hbne : b ≠ [] := by
              intro hx
              rw [hx] at hb
              simp at hb
            rw [show subject ++ '\n' :: '\n' :: b = (subject ++ ['\n', '\n']) ++ b by
              simp, List.getLast?_append] at hc
            have hbl : b.getLast? ≠ none := by
              simp [List.getLast?_eq_none_iff, hbne]
            cases hy : b.getLast? with
            | none => exact absurd hy hbl
            | some d =>
              rw [hy] at hc
              have hd : d = c := by simpa using hc
              exact pyStrip_getLast_not_space (hbody b rfl) (by rw [hy, hd])
      · subst hfcase
        by_cases hf : f.isEmpty
        · have hseg : blockSeg (some f) = [] := by simp [blockSeg, hf]
          rw [hseg, List.append_nil] at hc
          rcases hbcase : body with _ | b
          · subst hbcase
            simp only [blockSeg, List.append_nil] at hc
            exact pyStrip_getLast_not_space hsubj hc
          · subst hbcase
            by_cases hb : b.isEmpty
            · simp only [blockSeg, hb, if_pos, List.append_nil] at hc
              exact pyStrip_getLast_not_space hsubj hc
            · simp only [blockSeg, hb, if_neg, Bool.false_eq_true, not_false_iff] at hc
              have hbne : b ≠ [] := by
                intro hx
                rw [hx] at hb
                simp at hb
              rw [show subject ++ '\n' :: '\n' :: b = (subject ++ ['\n', '\n']) ++ b by
                simp, List.getLast?_append] at hc
              have hbl : b.getLast? ≠ none := by
                simp [List.getLast?_eq_none_iff, hbne]
              cases hy : b.getLast? with
              | none => exact absurd hy hbl
              | some d =>
                rw [hy] at hc
                have hd : d = c := by simpa using hc
                exact pyStrip_getLast_not_space (hbody b rfl) (by rw [hy, hd])
        · have hfne : f ≠ [] := by
            intro hx
            rw [hx] at hf
            simp at hf
          have hseg : blockSeg (some f) = '\n' :: '\n' :: f := by simp [blockSeg, hf]
          rw [hseg, show subject ++ blockSeg body ++ '\n' :: '\n' :: f =
            (subject ++ blockSeg body ++ ['\n', '\n']) ++ f by simp,
            List.getLast?_append] at hc
          have hfl : f.getLast? ≠ none := by
            simp [List.getLast?_eq_none_iff, hfne]
          cases hy : f.getLast? with
          | none => exact absurd hy hfl
          | some d =>
            rw [hy] at hc
            have hd : d = c := by simpa using hc
            exact pyStrip_getLast_not_space (hfoot f rfl) (by rw [hy, hd])

/-- Witness for C4 on a concrete stripped message. -/
theorem c4_format_shape_witness :
    (CommitMessage.mk (lit "feat: x") (some (lit "body line")) (some (lit "Refs: 1"))
      [] 0 0 [] []).format =
      lit "feat: x" ++ blockSeg (some (lit "body line")) ++
        blockSeg (some (lit "Refs: 1")) ∧
    (∀ c, (CommitMessage.mk (lit "feat: x") (some (lit "body line"))
      (some (lit "Refs: 1")) [] 0 0 [] []).format.head? = some c →
      pyIsSpace c = false) ∧
    (∀ c, (CommitMessage.mk (lit "feat: x") (some (lit "body line"))
      (some (lit "Refs: 1")) [] 0 0 [] []).format.getLast? = some c →
      pyIsSpace c = false) := by
  have h := c4_format_shape (lit "feat: x") (some (lit "body line"))
    (some (lit "Refs: 1")) [] 0 0 [] []
  have hb := h.2.2 (by decide) (by decide)
    (by intro s hs; cases hs; decide) (by intro s hs; cases hs; decide)
  exact ⟨h.1, hb.1, hb.2⟩

/-! ## C1: the response parser's line classification -/

theorem isFooterStart_not_blank {l : PyStr} (h : isFooterStart l = true) :
    (pyStrip l).isEmpty = false := by
  cases hx : pyStrip l with
  | nil =>
    exfalso
    simp only [isFooterStart, hx] at h
    exact absurd h (by decide)
  | cons a as => rfl

theorem blank_not_footer {l : PyStr} (hb : isBlankLine l = true) :
    isFooterStart l = false := by
  cases hx : isFooterStart l with
  | false => rfl
  | true =>
    have := isFooterStart_not_blank hx
    rw [isBlankLine] at hb
    rw [hb] at this
    exact absurd this (by decide)

theorem parseLoop_inFooter (lines : List PyStr) (subj : PyStr) (inB : Bool)
    (bodyL footL : List PyStr) (hs : subj.isEmpty = false) :
    parseLoop lines ⟨subj, inB, true, bodyL, footL⟩ =
      ⟨subj, inB, true, bodyL, footL ++ lines.map pyStrip⟩ := by
  induction lines generalizing footL with
  | nil => simp [parseLoop]
  | cons line rest ih =>
    simp only [parseLoop, hs, Bool.false_and, Bool.not_true, if_false,
      Bool.false_eq_true, if_true]
    rw [ih]
    simp

theorem parseLoop_inBody_proj (lines : List PyStr) (subj : PyStr)
    (bodyL footL : List PyStr) (hs : subj.isEmpty = false) :
    (parseLoop lines ⟨subj, true, false, bodyL, footL⟩).subject = subj ∧
    (parseLoop lines ⟨subj, true, false, bodyL, footL⟩).bodyLines =
      bodyL ++ lines.takeWhile (fun l => !isFooterStart l) ∧
    (parseLoop lines ⟨subj, true, false, bodyL, footL⟩).footerLines =
      footL ++ (lines.dropWhile fun l => !isFooterStart l).map pyStrip := by
  induction lines generalizing bodyL with
  | nil => simp [parseLoop]
  | cons line rest ih =>
    by_cases hm : isFooterStart line
    · simp only [parseLoop, hs, hm, Bool.false_and, Bool.false_eq_true, if_false,
        Bool.not_false, Bool.true_and, if_true]
      rw [parseLoop_inFooter rest subj true bodyL (footL ++ [pyStrip line]) hs]
      simp [List.takeWhile_cons, List.dropWhile_cons, hm]
    · simp only [parseLoop, hs, hm, Bool.false_and, Bool.false_eq_true, if_false,
        Bool.not_false, Bool.true_and, Bool.and_false, Bool.or_true, if_true]
      obtain ⟨h1, h2, h3⟩ := ih (bodyL ++ [line])
      refine ⟨h1, ?_, ?_⟩
      · rw [h2]
        simp [List.takeWhile_cons, hm]
      · rw [h3]
        simp [List.dropWhile_cons, hm]

theorem parseLoop_afterSubject_proj (lines : List PyStr) (subj : PyStr)
    (hs : subj.isEmpty = false) :
    (parseLoop lines ⟨subj, false, false, [], []⟩).subject = subj ∧
    (parseLoop lines ⟨subj, false, false, [], []⟩).bodyLines =
      (lines.takeWhile fun l => !isFooterStart l).dropWhile isBlankLine ∧
    (parseLoop lines ⟨subj, false, false, [], []⟩).footerLines =
      (lines.dropWhile fun l => !isFooterStart l).map pyStrip := by
  induction lines with
  | nil => simp [parseLoop]
  | cons line rest ih =>
    by_cases hm : isFooterStart line
    · simp only [parseLoop, hs, hm, Bool.false_and, Bool.false_eq_true, if_false,
        Bool.not_false, Bool.true_and, if_true, List.nil_append]
      rw [parseLoop_inFooter rest subj false [] [pyStrip line] hs]
      simp [List.takeWhile_cons, List.dropWhile_cons, hm]
    · by_cases hb : isBlankLine line
      · have hb' : (pyStrip line).isEmpty = true := hb
        simp only [parseLoop, hs, hm, hb', Bool.false_and, Bool.false_eq_true,
          if_false, Bool.not_false, Bool.true_and, Bool.and_false, Bool.not_true,
          Bool.or_false, Bool.false_or, if_true]
        obtain ⟨h1, h2, h3⟩ := ih
        refine ⟨h1, ?_, ?_⟩
        · rw [h2]
          simp [List.takeWhile_cons, hm, List.dropWhile_cons, hb]
        · rw [h3]
          simp [List.dropWhile_cons, hm]
      · have hb' : (pyStrip line).isEmpty = false := by
          cases hx : (pyStrip line).isEmpty
          · rfl
          · exact absurd hx (by simpa [isBlankLine] using hb)
        simp only [parseLoop, hs, hm, hb', Bool.false_and, Bool.false_eq_true,
          if_false, Bool.not_false, Bool.true_and, Bool.and_false, Bool.true_or,
          Bool.or_false, if_true, List.nil_append]
        obtain ⟨h1, h2, h3⟩ := parseLoop_inBody_proj rest subj [line] [] hs
        refine ⟨h1, ?_, ?_⟩
        · rw [h2]
          simp [List.takeWhile_cons, hm, List.dropWhile_cons, hb]
        · rw [h3]
          simp [List.dropWhile_cons, hm]

theorem parseLoop_start_proj (lines : List PyStr) :
    (parseLoop lines ⟨[], false, false, [], []⟩).subject =
      (match lines.dropWhile isBlankLine with
       | [] => []
       | l :: _ => pyStrip l) ∧
    (parseLoop lines ⟨[], false, false, [], []⟩).bodyLines =
      (bodyPartOf lines).dropWhile isBlankLine ∧
    (parseLoop lines ⟨[], false, false, [], []⟩).footerLines =
      (footerPartOf lines).map pyStrip := by
  induction lines with
  | nil => simp [parseLoop, bodyPartOf, footerPartOf, linesAfterSubject]
  | cons line rest ih =>
    by_cases hb : isBlankLine line
    · have hb' : (pyStrip line).isEmpty = true := hb
      have hm : isFooterStart line = false := blank_not_footer hb
      simp only [parseLoop, hb', hm, List.isEmpty_nil, Bool.not_true,
        Bool.and_false, Bool.true_and, Bool.not_false, Bool.and_self,
        Bool.false_eq_true, if_false, Bool.or_false, Bool.false_or]
      obtain ⟨h1, h2, h3⟩ := ih
      refine ⟨?_, ?_, ?_⟩
      · rw [h1]
        simp [List.dropWhile_cons, hb]
      · rw [h2]
        simp [bodyPartOf, linesAfterSubject, List.dropWhile_cons, hb]
      · rw [h3]
        simp [footerPartOf, linesAfterSubject, List.dropWhile_cons, hb]
    · have hb' : (pyStrip line).isEmpty = false := by
        cases hx : (pyStrip line).isEmpty
        · rfl
        · exact absurd hx (by simpa [isBlankLine] using hb)
      simp only [parseLoop, hb', List.isEmpty_nil, Bool.not_false, Bool.and_self,
        Bool.true_and, if_true]
      obtain ⟨h1, h2, h3⟩ := parseLoop_afterSubject_proj rest (pyStrip line) hb'
      refine ⟨?_, ?_, ?_⟩
      · rw [h1]
        simp [List.dropWhile_cons, hb]
      · rw [h2]
        simp [bodyPartOf, linesAfterSubject, List.dropWhile_cons, hb]
      · rw [h3]
        simp [footerPartOf, linesAfterSubject, List.dropWhile_cons, hb]

/-- C1 (amended): for every raw response text, the parser produces the
subject as the stripped first non-blank line (then truncated, see C3);
the footer as the stripped forms of the first marker line after the
subject and of all following lines, joined and finally stripped, absent
when no marker occurs; and the body as the lines between subject and
footer start with the *leading* blank lines dropped — interior blank
lines are kept — joined, with the joined text finally stripped. -/
theorem c1_parse_characterization (maxLen : ℕ) (text : PyStr) (tokens : ℕ) (cost : ℚ) :
    (parseMessage maxLen text tokens cost).subject =
      truncateSubject maxLen
        (match (splitNl (pyStrip text)).dropWhile isBlankLine with
         | [] => []
         | l :: _ => pyStrip l) ∧
    (parseMessage maxLen text tokens cost).body =
      (if ((bodyPartOf (splitNl (pyStrip text))).dropWhile isBlankLine).isEmpty then
        none
      else
        some (pyStrip (joinNl
          ((bodyPartOf (splitNl (pyStrip text))).dropWhile isBlankLine)))) ∧
    (parseMessage maxLen text tokens cost).footer =
      (if (footerPartOf (splitNl (pyStrip text))).isEmpty then none
      else
        some (pyStrip (joinNl ((footerPartOf (splitNl (pyStrip text))).map pyStrip)))) := by
  obtain ⟨h1, h2, h3⟩ := parseLoop_start_proj (splitNl (pyStrip text))
  refine ⟨?_, ?_, ?_⟩
  · simp only [parseMessage, h1]
  · simp only [parseMessage, h2]
  · simp only [parseMessage, h3]
    by_cases hf : (footerPartOf (splitNl (pyStrip text))).isEmpty
    · have : footerPartOf (splitNl (pyStrip text)) = [] := by
        simpa [List.isEmpty_iff] using hf
      simp [this]
    · have : footerPartOf (splitNl (pyStrip text)) ≠ [] := by
        simpa [List.isEmpty_iff] using hf
      simp [List.isEmpty_iff, this, hf]

/-- Counterexample to C1 as stated: on the raw text
`"subj\nline1\n\nline2"` the parser keeps the interior blank line of
the body, while the claim's description (blank lines within the body
are dropped) predicts the blank line removed. -/
theorem c1_body_counterexample :
    (parseMessage 72 (lit "subj\nline1\n\nline2") 0 0).body =
      some (lit "line1\n\nline2") ∧
    claimedBody (lit "subj\nline1\n\nline2") = some (lit "line1\nline2") ∧
    (some (lit "line1\n\nline2") : Option PyStr) ≠ some (lit "line1\nline2") := by
  refine ⟨by decide, by decide, by decide⟩

/-! ## C9: counting additions and deletions in the staged diff -/

theorem splitNl_cons_newline (rest : PyStr) :
    splitNl ('\n' :: rest) = [] :: splitNl rest := by
  rcases h : splitNl rest with _ | ⟨l, ls⟩
  · exact absurd h (splitNl_ne_nil rest)
  · simp [splitNl, h]

theorem splitNl_cons_other {c : Char} (hc : c ≠ '\n') (rest : PyStr) :
    splitNl (c :: rest) = (c :: (splitNl rest).headI) :: (splitNl rest).tail := by
  rcases h : splitNl rest with _ | ⟨l, ls⟩
  · exact absurd h (splitNl_ne_nil rest)
  · simp [splitNl, h, hc]

theorem splitNl_headI_takeWhile (t : PyStr) :
    (splitNl t).headI = t.takeWhile fun c => !decide (c = '\n') := by
  induction t with
  | nil => simp [splitNl]
  | cons c rest ih =>
    by_cases hc : c = '\n'
    · subst hc
      rw [splitNl_cons_newline]
      simp [List.takeWhile_cons]
    · rw [splitNl_cons_other hc]
      simp [List.takeWhile_cons, hc, ih]

theorem splitNl_append_no_newline {q : PyStr} (hq : ∀ c ∈ q, c ≠ '\n') (t : PyStr) :
    splitNl (q ++ t) = (q ++ (splitNl t).headI) :: (splitNl t).tail := by
  induction q with
  | nil =>
    rcases h : splitNl t with _ | ⟨l, ls⟩
    · exact absurd h (splitNl_ne_nil t)
    · simp [h]
  | cons c q' ih =>
    have hc : c ≠ '\n' := hq c (List.mem_cons_self c q')
    rw [List.cons_append, splitNl_cons_other hc,
      ih fun x hx => hq x (List.mem_cons_of_mem c hx)]
    simp

theorem countPos_append_no_newline {q : PyStr} (hq : ∀ c ∈ q, c ≠ '\n')
    (t p : PyStr) : countPos (q ++ t) ('\n' :: p) = countPos t ('\n' :: p) := by
  induction q with
  | nil => simp
  | cons c q' ih =>
    have hc : c ≠ '\n' := hq c (List.mem_cons_self c q')
    have hnp : ('\n' :: p).isPrefixOf (c :: (q' ++ t)) = false := by
      cases hx : ('\n' :: p).isPrefixOf (c :: (q' ++ t)) with
      | false => rfl
      | true =>
        obtain ⟨h1, _⟩ := List.cons_prefix_cons.mp (List.isPrefixOf_iff_prefix.mp hx)
        exact absurd h1.symm hc
    rw [List.cons_append]
    simp only [countPos, hnp, Bool.false_eq_true, if_false]
    rw [ih fun x hx => hq x (List.mem_cons_of_mem c hx)]
    omega

theorem pyCount_newline_aux (p : PyStr) (hnl : ∀ c ∈ p, c ≠ '\n') :
    ∀ (n : ℕ) (s : PyStr), s.length ≤ n →
      pyCount s ('\n' :: p) = (splitNl s).tail.countP fun l => p.isPrefixOf l := by
  intro n
  induction n with
  | zero =>
    intro s hs
    obtain rfl : s = [] := List.length_eq_zero.mp (Nat.le_zero.mp hs)
    rw [pyCount.eq_def]
    simp [splitNl]
  | succ n ih =>
    intro s hs
    cases s with
    | nil =>
      rw [pyCount.eq_def]
      simp [splitNl]
    | cons c rest =>
      by_cases hpre : ('\n' :: p).isPrefixOf (c :: rest) = true
      · obtain ⟨hc, hrest⟩ := List.cons_prefix_cons.mp (List.isPrefixOf_iff_prefix.mp hpre)
        subst hc
        obtain ⟨rest', rfl⟩ := hrest
        rw [pyCount.eq_def]
        simp only [hpre, if_true, List.length_cons, reduceCtorEq, if_false]
        have hdrop : List.drop (List.length p + 1 - 1) (p ++ rest') = rest' := by
          simp [List.drop_left]
        rw [hdrop]
        have hlen : rest'.length ≤ n := by
          have := hs
          simp only [List.length_cons, List.length_append] at this
          omega
        rw [ih rest' hlen, splitNl_cons_newline, List.tail_cons,
          splitNl_append_no_newline hnl]
        have hpx : (p.isPrefixOf (p ++ (splitNl rest').headI)) = true :=
          List.isPrefixOf_iff_prefix.mpr (List.prefix_append p _)
        simp [List.countP_cons, hpx]
        omega
      · rw [pyCount.eq_def]
        simp only [hpre, Bool.false_eq_true, if_false, reduceCtorEq]
        have hlen : rest.length ≤ n := by
          simp only [List.length_cons] at hs
          omega
        rw [ih rest hlen]
        by_cases hc : c = '\n'
        · subst hc
          rw [splitNl_cons_newline, List.tail_cons]
          rcases hsp : splitNl rest with _ | ⟨l0, ls⟩
          · exact absurd hsp (splitNl_ne_nil rest)
          · have hl0 : p.isPrefixOf l0 = false := by
              cases hx : p.isPrefixOf l0 with
              | false => rfl
              | true =>
                exfalso
                have hpfx : p <+: l0 := List.isPrefixOf_iff_prefix.mp hx
                have hl0head : l0 = (splitNl rest).headI := by rw [hsp]; rfl
                have htw : l0 <+: rest := by
                  rw [hl0head, splitNl_headI_takeWhile]
                  exact List.takeWhile_prefix _
                have : ('\n' :: p) <+: ('\n' :: rest) :=
                  List.cons_prefix_cons.mpr ⟨rfl, hpfx.trans htw⟩
                rw [← List.isPrefixOf_iff_prefix] at this
                exact absurd this (by simpa using hpre)
            rw [List.tail_cons, List.countP_cons, hl0]
            simp
        · rw [splitNl_cons_other hc, List.tail_cons]

theorem pyCount_newline_pattern (p : PyStr) (hnl : ∀ c ∈ p, c ≠ '\n') (s : PyStr) :
    pyCount s ('\n' :: p) = (splitNl s).tail.countP fun l => p.isPrefixOf l :=
  pyCount_newline_aux p hnl s.length s le_rfl

theorem countP_prefix_mono {p q : PyStr} (hpq : p.isPrefixOf q = true)
    (lines : List PyStr) :
    (lines.countP fun l => q.isPrefixOf l) ≤ lines.countP fun l => p.isPrefixOf l := by
  refine List.countP_mono_left fun l _ hl => ?_
  rw [List.isPrefixOf_iff_prefix] at hpq hl ⊢
  exact hpq.trans hl

/-- C9 (amended): the reported additions count equals the number of
lines that begin with `+` minus the number of lines that begin with
`+++`, counted over the lines *after the first line* of the diff text
(`str.count("\n+")` only sees occurrences preceded by a newline), and
symmetrically for deletions. -/
theorem c9_diff_counts (d : PyStr) :
    (stagedAdditions d : ℤ) =
      ((splitNl d).tail.countP fun l => pyStartsWith l (lit "+")) -
      ((splitNl d).tail.countP fun l => pyStartsWith l (lit "+++")) ∧
    (stagedDeletions d : ℤ) =
      ((splitNl d).tail.countP fun l => pyStartsWith l (lit "-")) -
      ((splitNl d).tail.countP fun l => pyStartsWith l (lit "---")) := by
  have hplus : pyCount d (lit "\n+") =
      (splitNl d).tail.countP fun l => pyStartsWith l (lit "+") := by
    rw [show lit "\n+" = '\n' :: lit "+" from rfl,
      pyCount_newline_pattern (lit "+") (by decide) d]
    rfl
  have hplus3 : pyCount d (lit "\n+++") =
      (splitNl d).tail.countP fun l => pyStartsWith l (lit "+++") := by
    rw [show lit "\n+++" = '\n' :: lit "+++" from rfl,
      pyCount_newline_pattern (lit "+++") (by decide) d]
    rfl
  have hminus : pyCount d (lit "\n-") =
      (splitNl d).tail.countP fun l => pyStartsWith l (lit "-") := by
    rw [show lit "\n-" = '\n' :: lit "-" from rfl,
      pyCount_newline_pattern (lit "-") (by decide) d]
    rfl
  have hminus3 : pyCount d (lit "\n---") =
      (splitNl d).tail.countP fun l => pyStartsWith l (lit "---") := by
    rw [show lit "\n---" = '\n' :: lit "---" from rfl,
      pyCount_newline_pattern (lit "---") (by decide) d]
    rfl
  have hle1 : ((splitNl d).tail.countP fun l => pyStartsWith l (lit "+++")) ≤
      (splitNl d).tail.countP fun l => pyStartsWith l (lit "+") := by
    simpa [pyStartsWith] using
      countP_prefix_mono (p := lit "+") (q := lit "+++") (by decide) (splitNl d).tail
  have hle2 : ((splitNl d).tail.countP fun l => pyStartsWith l (lit "---")) ≤
      (splitNl d).tail.countP fun l => pyStartsWith l (lit "-") := by
    simpa [pyStartsWith] using
      countP_prefix_mono (p := lit "-") (q := lit "---") (by decide) (splitNl d).tail
  constructor
  · simp only [stagedAdditions, hplus, hplus3]
    have hcast : ((((splitNl d).tail.countP fun l => pyStartsWith l (lit "+++")) : ℕ) : ℤ) ≤
        (((splitNl d).tail.countP fun l => pyStartsWith l (lit "+")) : ℕ) := by
      exact_mod_cast hle1
    rw [max_eq_right (by omega), Int.toNat_of_nonneg (by omega)]
  · simp only [stagedDeletions, hminus, hminus3]
    have hcast : ((((splitNl d).tail.countP fun l => pyStartsWith l (lit "---")) : ℕ) : ℤ) ≤
        (((splitNl d).tail.countP fun l => pyStartsWith l (lit "-")) : ℕ) := by
      exact_mod_cast hle2
    rw [max_eq_right (by omega), Int.toNat_of_nonneg (by omega)]

/-- Counterexample to C9 as stated: on the one-line diff text `"+x"`
the claim's count over all lines is 1, but the code reports 0 because
`str.count("\n+")` cannot see a `+` on the first line. -/
theorem c9_counterexample :
    stagedAdditions (lit "+x") = 0 ∧
    ((splitNl (lit "+x")).countP fun l => pyStartsWith l (lit "+")) -
      ((splitNl (lit "+x")).countP fun l => pyStartsWith l (lit "+++")) = 1 ∧
    (0 : ℕ) ≠ 1 := by
  have h1 : pyCount (lit "+x") (lit "\n+") = 0 := by
    rw [show lit "\n+" = '\n' :: lit "+" from rfl,
      pyCount_newline_pattern (lit "+") (by decide)]
    decide
  have h2 : pyCount (lit "+x") (lit "\n+++") = 0 := by
    rw [show lit "\n+++" = '\n' :: lit "+++" from rfl,
      pyCount_newline_pattern (lit "+++") (by decide)]
    decide
  refine ⟨?_, by decide, by decide⟩
  simp [stagedAdditions, h1, h2]

end Diff2Commit
